import Mathlib

/-!
Shallow embedding of the user-management service in `src/main.py`.

The in-memory store is the global list `users_db`; the persisted JSON file is
modelled by the list of records it encodes (`none` when the file is absent).
Each route handler becomes a pure function; raising `HTTPException` becomes
returning `Except.error` before any state change.
-/

set_option maxHeartbeats 1000000

/-- User record (pydantic model `User` in `src/main.py`). -/
structure User where
  id : Int
  username : String
  email : String
  full_name : Option String
  phone : Option String
  is_active : Bool
deriving Repr, DecidableEq

/-- Request body for create/update (pydantic model `UserCreate` in `src/main.py`). -/
structure UserCreate where
  username : String
  email : String
  full_name : Option String
  phone : Option String
  is_active : Bool
deriving Repr, DecidableEq

/-- `fastapi.HTTPException`: an HTTP status code and a detail message. -/
structure HTTPException where
  status_code : Nat
  detail : String
deriving Repr, DecidableEq

/-- The service state: the in-memory list `users_db`, and the persisted data
file modelled by the record list it encodes (`none` = file absent).
`save_users` overwrites the file with the current list. -/
structure AppState where
  users_db : List User
  data_file : Option (List User)
deriving Repr, DecidableEq

/-- Python's `str.lower()`, modelled characterwise: `Char.toLower` applied to
every character. -/
def lowerStr (s : String) : String :=
  ⟨s.data.map Char.toLower⟩

/-- Character-list helper: `needle` matches at the start of `hay`. -/
def leadEq : List Char → List Char → Bool
  | _, [] => true
  | [], _ :: _ => false
  | c :: cs, d :: ds => c == d && leadEq cs ds

/-- Python's substring test `needle in hay`, on character lists. -/
def occursIn (needle : List Char) : List Char → Bool
  | [] => leadEq [] needle
  | c :: cs => leadEq (c :: cs) needle || occursIn needle cs

/-- Python's substring test `needle in hay`, on strings. -/
def substrIn (needle hay : String) : Bool :=
  occursIn needle.data hay.data

/-- `get_next_id` in `src/main.py`: `1` for an empty list, otherwise
`max(user.id for user in users) + 1`. -/
def get_next_id (users : List User) : Int :=
  match users with
  | [] => 1
  | u :: rest => rest.foldl (fun m v => max m v.id) u.id + 1

/-- The search filter inside `get_all_users`: `s` is the already-lowercased
search string.  Username, email and full name are lowercased before the
substring test; the phone is compared as stored (`search in user.phone`,
without `.lower()` on the phone). -/
def matchesSearch (s : String) (u : User) : Bool :=
  substrIn s (lowerStr u.username) || substrIn s (lowerStr u.email) ||
  (match u.full_name with | some fn => substrIn s (lowerStr fn) | none => false) ||
  (match u.phone with | some p => substrIn s p | none => false)

/-- Response of `GET /users`: total of the filtered set, the echoed
`skip`/`limit`, and the page. -/
structure ListResult where
  total : Nat
  skip : Int
  limit : Int
  users : List User
deriving Repr, DecidableEq

/-- Python list slicing `l[start:stop]`: negative indices count from the end,
then both endpoints are clamped to `[0, len(l)]`. -/
def pySlice {α : Type} (l : List α) (start stop : Int) : List α :=
  let n : Int := l.length
  let b : Int := if start < 0 then max (n + start) 0 else min start n
  let e : Int := if stop < 0 then max (n + stop) 0 else min stop n
  (l.take e.toNat).drop b.toNat

/-- `GET /users` (`get_all_users` in `src/main.py`).  `search=None` and
`search=""` are both falsy in `if search:`, so they skip the filter. -/
def get_all_users (db : List User) (skip limit : Int) (search : Option String) : ListResult :=
  let result : List User :=
    match search with
    | some s => if s.isEmpty then db else db.filter (matchesSearch (lowerStr s))
    | none => db
  { total := result.length, skip := skip, limit := limit
    users := pySlice result skip (skip + limit) }

/-- `GET /users/{user_id}` (`get_user`): first record with the id, else 404. -/
def get_user : List User → Int → Except HTTPException User
  | [], _ => Except.error ⟨404, "用户不存在"⟩
  | u :: rest, user_id => if u.id = user_id then Except.ok u else get_user rest user_id

/-- The duplicate scan at the top of `create_user`: one pass over the list,
checking the username and then the email of each record in turn. -/
def checkDup : List User → UserCreate → Option HTTPException
  | [], _ => none
  | u :: rest, ud =>
    if u.username = ud.username then some ⟨400, "用户名已存在"⟩
    else if u.email = ud.email then some ⟨400, "邮箱已存在"⟩
    else checkDup rest ud

/-- Building a `User` from an id and a `UserCreate`, as `create_user` and
`update_user` both do field by field. -/
def mkUser (i : Int) (ud : UserCreate) : User :=
  { id := i, username := ud.username, email := ud.email,
    full_name := ud.full_name, phone := ud.phone, is_active := ud.is_active }

/-- `POST /users` (`create_user`): on a duplicate the exception is raised
before any mutation; on success the record is appended and the file saved. -/
def create_user (st : AppState) (ud : UserCreate) : AppState × Except HTTPException User :=
  match checkDup st.users_db ud with
  | some e => (st, Except.error e)
  | none =>
    let nu := mkUser (get_next_id st.users_db) ud
    let db2 := st.users_db ++ [nu]
    (⟨db2, some db2⟩, Except.ok nu)

/-- The inner duplicate scan of `update_user`: records whose id equals the
target id are skipped (`other_user.id != user_id and ...`). -/
def checkOtherDup : List User → Int → UserCreate → Option HTTPException
  | [], _, _ => none
  | u :: rest, user_id, ud =>
    if u.id ≠ user_id ∧ u.username = ud.username then some ⟨400, "用户名已被其他用户使用"⟩
    else if u.id ≠ user_id ∧ u.email = ud.email then some ⟨400, "邮箱已被其他用户使用"⟩
    else checkOtherDup rest user_id ud

/-- Replace the first record whose id matches; unchanged if none does. -/
def replaceById : List User → Int → User → List User
  | [], _, _ => []
  | u :: rest, user_id, nu =>
    if u.id = user_id then nu :: rest else u :: replaceById rest user_id nu

/-- `PUT /users/{user_id}` (`update_user`).  The source iterates to the first
index whose id matches, runs the conflict scan over the whole list, and
replaces the record at that index; falling through the loop yields 404.  The
conflict scan does not depend on the index, so this is written as: if some
record has the id, scan for conflicts, then replace the first match. -/
def update_user (st : AppState) (user_id : Int) (ud : UserCreate) :
    AppState × Except HTTPException User :=
  if ∃ u ∈ st.users_db, u.id = user_id then
    match checkOtherDup st.users_db user_id ud with
    | some e => (st, Except.error e)
    | none =>
      let nu := mkUser user_id ud
      let db2 := replaceById st.users_db user_id nu
      (⟨db2, some db2⟩, Except.ok nu)
  else (st, Except.error ⟨404, "用户不存在"⟩)

/-- `users_db.pop(i)` at the first index whose id matches: the remaining list
and the removed record, or `none` when no record has the id. -/
def popById : List User → Int → Option (List User × User)
  | [], _ => none
  | u :: rest, user_id =>
    if u.id = user_id then some (rest, u)
    else
      match popById rest user_id with
      | some (db2, du) => some (u :: db2, du)
      | none => none

/-- `DELETE /users/{user_id}` (`delete_user`). -/
def delete_user (st : AppState) (user_id : Int) : AppState × Except HTTPException User :=
  match popById st.users_db user_id with
  | some (db2, du) => (⟨db2, some db2⟩, Except.ok du)
  | none => (st, Except.error ⟨404, "用户不存在"⟩)

/-- `GET /users/search/{keyword}` (`search_users`): substring match over
username, email and full name only — the phone field is not consulted. -/
def search_users : List User → String → List User
  | [], _ => []
  | u :: rest, keyword =>
    if substrIn (lowerStr keyword) (lowerStr u.username) ||
       substrIn (lowerStr keyword) (lowerStr u.email) ||
       (match u.full_name with | some fn => substrIn (lowerStr keyword) (lowerStr fn) | none => false)
    then u :: search_users rest keyword
    else search_users rest keyword

/-- A user object as decoded from JSON, before pydantic validation: every
field possibly absent. -/
structure UserDict where
  id : Option Int
  username : Option String
  email : Option String
  full_name : Option String
  phone : Option String
  is_active : Option Bool
deriving Repr, DecidableEq

/-- Outcome of `json.load` on the data file's content: a decode failure
(`json.JSONDecodeError`) or a decoded array of objects. -/
inductive JsonDoc where
  | malformed : JsonDoc
  | array : List UserDict → JsonDoc
deriving Repr, DecidableEq

/-- pydantic `User(**d)`: `id`, `username`, `email` are required; `full_name`
and `phone` default to `None`, `is_active` defaults to `True`; a missing
required field raises a ValidationError. -/
def validateUser (d : UserDict) : Except String User :=
  match d.id, d.username, d.email with
  | some i, some un, some em =>
    Except.ok { id := i, username := un, email := em, full_name := d.full_name,
                phone := d.phone, is_active := d.is_active.getD true }
  | _, _, _ => Except.error "validation error"

/-- The loop in `load_users` building `User` objects one by one; the first
validation failure propagates out of the function. -/
def loadList : List UserDict → Except String (List User)
  | [] => Except.ok []
  | d :: rest =>
    match validateUser d with
    | Except.error e => Except.error e
    | Except.ok u =>
      match loadList rest with
      | Except.ok us => Except.ok (u :: us)
      | Except.error e => Except.error e

/-- `load_users` in `src/main.py`: absent file yields `[]`; a JSON decode
error is caught (`except json.JSONDecodeError: return []`); errors raised
while building the `User` objects are not caught and propagate. -/
def load_users (file : Option JsonDoc) : Except String (List User) :=
  match file with
  | none => Except.ok []
  | some JsonDoc.malformed => Except.ok []
  | some (JsonDoc.array ds) => loadList ds

/-- The matcher claim C2 asserts for `GET /users?search=`: the lowercased
search string tested against the lowercased username, email, full name and
phone — all four fields case-insensitive. -/
def specMatch (s : String) (u : User) : Bool :=
  substrIn (lowerStr s) (lowerStr u.username) || substrIn (lowerStr s) (lowerStr u.email) ||
  (match u.full_name with | some fn => substrIn (lowerStr s) (lowerStr fn) | none => false) ||
  (match u.phone with | some p => substrIn (lowerStr s) (lowerStr p) | none => false)

/-- The matcher the code actually implements, phrased from the search string
as received: username, email and full name case-insensitively, the phone
compared as stored against the lowercased search string. -/
def specMatchAmended (s : String) (u : User) : Bool :=
  substrIn (lowerStr s) (lowerStr u.username) || substrIn (lowerStr s) (lowerStr u.email) ||
  (match u.full_name with | some fn => substrIn (lowerStr s) (lowerStr fn) | none => false) ||
  (match u.phone with | some p => substrIn (lowerStr s) p | none => false)

/-- No two records share an id. -/
def UniqueIds (db : List User) : Prop := (db.map User.id).Nodup

/-- No two records share a username (case-sensitive). -/
def UniqueUsernames (db : List User) : Prop := (db.map User.username).Nodup

/-- No two records share an email (case-sensitive). -/
def UniqueEmails (db : List User) : Prop := (db.map User.email).Nodup

/-- The three uniqueness invariants of the store, from the spec's data model. -/
def StoreInv (db : List User) : Prop :=
  UniqueIds db ∧ UniqueUsernames db ∧ UniqueEmails db

instance (db : List User) : Decidable (UniqueIds db) := by
  unfold UniqueIds
  infer_instance

instance (db : List User) : Decidable (StoreInv db) := by
  unfold StoreInv UniqueIds UniqueUsernames UniqueEmails
  infer_instance

/-! ### Helper lemmas -/

theorem specMatchAmended_eq_matchesSearch (s : String) (u : User) :
    specMatchAmended s u = matchesSearch (lowerStr s) u := rfl

theorem pySlice_nonneg {α : Type} (l : List α) (a b : Int) (ha : 0 ≤ a) (hb : 0 ≤ b) :
    pySlice l a (a + b) = (l.drop a.toNat).take b.toNat := by
  simp only [pySlice]
  rw [if_neg (by omega : ¬ a < 0), if_neg (by omega : ¬ a + b < 0)]
  have h1 : (min a (l.length : Int)).toNat = min a.toNat l.length := by omega
  have h2 : (min (a + b) (l.length : Int)).toNat = min (a.toNat + b.toNat) l.length := by omega
  rw [h1, h2, List.drop_take]
  rcases Nat.le_total a.toNat l.length with hle | hle
  · rw [Nat.min_eq_left hle, List.take_eq_take]
    rw [List.length_drop]
    omega
  · rw [Nat.min_eq_right hle]
    rw [List.drop_eq_nil_of_le (by simp), List.drop_eq_nil_of_le (by simpa using hle)]
    simp

theorem foldl_max_init_le (db : List User) :
    ∀ a : Int, a ≤ db.foldl (fun m v => max m v.id) a := by
  induction db with
  | nil => intro a; exact le_refl a
  | cons u rest ih =>
    intro a
    exact le_trans (le_max_left a u.id) (ih (max a u.id))

theorem id_le_foldl_max (db : List User) :
    ∀ (a : Int) (v : User), v ∈ db → v.id ≤ db.foldl (fun m v => max m v.id) a := by
  induction db with
  | nil => intro a v hv; cases hv
  | cons u rest ih =>
    intro a v hv
    rcases List.mem_cons.1 hv with h | h
    · subst h
      exact le_trans (le_max_right a v.id) (foldl_max_init_le rest (max a v.id))
    · exact ih (max a u.id) v h

theorem id_lt_get_next_id (db : List User) (v : User) (hv : v ∈ db) :
    v.id < get_next_id db := by
  cases db with
  | nil => cases hv
  | cons u rest =>
    show v.id < rest.foldl (fun m v => max m v.id) u.id + 1
    rcases List.mem_cons.1 hv with h | h
    · subst h
      exact lt_of_le_of_lt (foldl_max_init_le rest v.id) (by omega)
    · exact lt_of_le_of_lt (id_le_foldl_max rest u.id v h) (by omega)

theorem foldl_max_attained (db : List User) :
    ∀ a : Int, db.foldl (fun m v => max m v.id) a = a ∨
      ∃ v ∈ db, db.foldl (fun m v => max m v.id) a = v.id := by
  induction db with
  | nil => intro a; exact Or.inl rfl
  | cons u rest ih =>
    intro a
    have hfold : (u :: rest).foldl (fun m v => max m v.id) a
        = rest.foldl (fun m v => max m v.id) (max a u.id) := rfl
    rcases ih (max a u.id) with h | ⟨v, hv, h⟩
    · rcases le_total a u.id with hle | hle
      · refine Or.inr ⟨u, List.mem_cons_self u rest, ?_⟩
        rw [hfold, h, max_eq_right hle]
      · refine Or.inl ?_
        rw [hfold, h, max_eq_left hle]
    · exact Or.inr ⟨v, List.mem_cons_of_mem u hv, by rw [hfold, h]⟩

theorem get_next_id_eq_succ_mem (db : List User) (h : db ≠ []) :
    ∃ v ∈ db, get_next_id db = v.id + 1 := by
  cases db with
  | nil => exact absurd rfl h
  | cons u rest =>
    show ∃ v ∈ u :: rest, rest.foldl (fun m v => max m v.id) u.id + 1 = v.id + 1
    rcases foldl_max_attained rest u.id with h1 | ⟨v, hv, h1⟩
    · exact ⟨u, List.mem_cons_self u rest, by rw [h1]⟩
    · exact ⟨v, List.mem_cons_of_mem u hv, by rw [h1]⟩

theorem checkDup_eq_none_iff (db : List User) (ud : UserCreate) :
    checkDup db ud = none ↔ ∀ u ∈ db, u.username ≠ ud.username ∧ u.email ≠ ud.email := by
  induction db with
  | nil => simp [checkDup]
  | cons u rest ih =>
    unfold checkDup
    by_cases h1 : u.username = ud.username
    · simp [h1]
    · by_cases h2 : u.email = ud.email
      · simp [h1, h2]
      · simp only [if_neg h1, if_neg h2, ih, List.mem_cons]
        constructor
        · intro h v hv
          rcases hv with hv | hv
          · subst hv; exact ⟨h1, h2⟩
          · exact h v hv
        · intro h v hv
          exact h v (Or.inr hv)

theorem checkDup_some_status (db : List User) (ud : UserCreate) (e : HTTPException)
    (h : checkDup db ud = some e) : e.status_code = 400 := by
  induction db with
  | nil => simp [checkDup] at h
  | cons u rest ih =>
    unfold checkDup at h
    by_cases h1 : u.username = ud.username
    · rw [if_pos h1] at h
      cases h; rfl
    · rw [if_neg h1] at h
      by_cases h2 : u.email = ud.email
      · rw [if_pos h2] at h
        cases h; rfl
      · rw [if_neg h2] at h
        exact ih h

theorem checkDup_append (pre l : List User) (ud : UserCreate)
    (h : ∀ v ∈ pre, v.username ≠ ud.username ∧ v.email ≠ ud.email) :
    checkDup (pre ++ l) ud = checkDup l ud := by
  induction pre with
  | nil => rfl
  | cons u rest ih =>
    have hu := h u (List.mem_cons_self u rest)
    have step : checkDup ((u :: rest) ++ l) ud = checkDup (rest ++ l) ud := by
      show (if u.username = ud.username then some ⟨400, "用户名已存在"⟩
        else if u.email = ud.email then some ⟨400, "邮箱已存在"⟩
        else checkDup (rest ++ l) ud) = checkDup (rest ++ l) ud
      rw [if_neg hu.1, if_neg hu.2]
    rw [step]
    exact ih (fun v hv => h v (List.mem_cons_of_mem u hv))

theorem checkOtherDup_eq_none_iff (db : List User) (user_id : Int) (ud : UserCreate) :
    checkOtherDup db user_id ud = none ↔
      ∀ u ∈ db, u.id ≠ user_id → u.username ≠ ud.username ∧ u.email ≠ ud.email := by
  induction db with
  | nil => simp [checkOtherDup]
  | cons u rest ih =>
    unfold checkOtherDup
    by_cases h1 : u.id ≠ user_id ∧ u.username = ud.username
    · rw [if_pos h1]
      refine iff_of_false (by simp) ?_
      intro hall
      exact (hall u (List.mem_cons_self u rest) h1.1).1 h1.2
    · by_cases h2 : u.id ≠ user_id ∧ u.email = ud.email
      · rw [if_neg h1, if_pos h2]
        refine iff_of_false (by simp) ?_
        intro hall
        exact (hall u (List.mem_cons_self u rest) h2.1).2 h2.2
      · simp only [if_neg h1, if_neg h2, ih, List.mem_cons]
        constructor
        · intro h v hv hvid
          rcases hv with hv | hv
          · subst hv
            constructor
            · intro hc; exact h1 ⟨hvid, hc⟩
            · intro hc; exact h2 ⟨hvid, hc⟩
          · exact h v hv hvid
        · intro h v hv hvid
          exact h v (Or.inr hv) hvid

theorem checkOtherDup_some_status (db : List User) (user_id : Int) (ud : UserCreate)
    (e : HTTPException) (h : checkOtherDup db user_id ud = some e) : e.status_code = 400 := by
  induction db with
  | nil => simp [checkOtherDup] at h
  | cons u rest ih =>
    unfold checkOtherDup at h
    by_cases h1 : u.id ≠ user_id ∧ u.username = ud.username
    · rw [if_pos h1] at h; cases h; rfl
    · rw [if_neg h1] at h
      by_cases h2 : u.id ≠ user_id ∧ u.email = ud.email
      · rw [if_pos h2] at h; cases h; rfl
      · rw [if_neg h2] at h; exact ih h

theorem mem_replaceById (db : List User) (user_id : Int) (nu v : User)
    (hv : v ∈ replaceById db user_id nu) : v = nu ∨ v ∈ db := by
  induction db with
  | nil => cases hv
  | cons u rest ih =>
    unfold replaceById at hv
    by_cases h : u.id = user_id
    · rw [if_pos h] at hv
      rcases List.mem_cons.1 hv with h1 | h1
      · exact Or.inl h1
      · exact Or.inr (List.mem_cons_of_mem u h1)
    · rw [if_neg h] at hv
      rcases List.mem_cons.1 hv with h1 | h1
      · exact Or.inr (h1 ▸ List.mem_cons_self u rest)
      · rcases ih h1 with h2 | h2
        · exact Or.inl h2
        · exact Or.inr (List.mem_cons_of_mem u h2)

theorem replaceById_map_id (db : List User) (user_id : Int) (nu : User) (hnu : nu.id = user_id) :
    (replaceById db user_id nu).map User.id = db.map User.id := by
  induction db with
  | nil => rfl
  | cons u rest ih =>
    unfold replaceById
    by_cases h : u.id = user_id
    · rw [if_pos h]
      simp only [List.map_cons]
      rw [hnu, h]
    · rw [if_neg h]
      simp only [List.map_cons]
      rw [ih]

theorem get_user_eq_error (db : List User) (user_id : Int)
    (h : ∀ u ∈ db, u.id ≠ user_id) : get_user db user_id = Except.error ⟨404, "用户不存在"⟩ := by
  induction db with
  | nil => rfl
  | cons u rest ih =>
    show (if u.id = user_id then Except.ok u else get_user rest user_id) = _
    rw [if_neg (h u (List.mem_cons_self u rest))]
    exact ih (fun v hv => h v (List.mem_cons_of_mem u hv))

theorem get_user_replaceById (db : List User) (user_id : Int) (nu : User)
    (hnu : nu.id = user_id) (hex : ∃ u ∈ db, u.id = user_id) :
    get_user (replaceById db user_id nu) user_id = Except.ok nu := by
  induction db with
  | nil => rcases hex with ⟨u, hu, _⟩; cases hu
  | cons u rest ih =>
    unfold replaceById
    by_cases h : u.id = user_id
    · rw [if_pos h]
      show (if nu.id = user_id then Except.ok nu else get_user rest user_id) = _
      rw [if_pos hnu]
    · rw [if_neg h]
      show (if u.id = user_id then Except.ok u else get_user (replaceById rest user_id nu) user_id) = _
      rw [if_neg h]
      rcases hex with ⟨v, hv, hvid⟩
      rcases List.mem_cons.1 hv with h1 | h1
      · exact absurd (h1 ▸ hvid) h
      · exact ih ⟨v, h1, hvid⟩

theorem popById_eq_none_iff (db : List User) (user_id : Int) :
    popById db user_id = none ↔ ∀ u ∈ db, u.id ≠ user_id := by
  induction db with
  | nil => simp [popById]
  | cons u rest ih =>
    unfold popById
    by_cases h : u.id = user_id
    · rw [if_pos h]
      refine iff_of_false (by simp) ?_
      intro hall
      exact hall u (List.mem_cons_self u rest) h
    · rw [if_neg h]
      cases hpop : popById rest user_id with
      | some p =>
        obtain ⟨r2, d2⟩ := p
        refine iff_of_false (by simp) ?_
        intro hall
        have hnone : popById rest user_id = none :=
          ih.2 (fun v hv => hall v (List.mem_cons_of_mem u hv))
        rw [hpop] at hnone
        cases hnone
      | none =>
        refine iff_of_true rfl ?_
        intro v hv
        rcases List.mem_cons.1 hv with hv | hv
        · exact hv ▸ h
        · exact ih.1 hpop v hv

theorem popById_some_spec (db : List User) (user_id : Int) (db2 : List User) (du : User)
    (h : popById db user_id = some (db2, du)) :
    du ∈ db ∧ du.id = user_id ∧ db2.length + 1 = db.length ∧ List.Sublist db2 db := by
  induction db generalizing db2 du with
  | nil => simp [popById] at h
  | cons u rest ih =>
    unfold popById at h
    by_cases hu : u.id = user_id
    · rw [if_pos hu] at h
      have h2 := Option.some.inj h
      simp only [Prod.mk.injEq] at h2
      obtain ⟨he1, he2⟩ := h2
      subst he1; subst he2
      exact ⟨List.mem_cons_self u rest, hu, rfl, List.sublist_cons_self u rest⟩
    · rw [if_neg hu] at h
      cases hpop : popById rest user_id with
      | none => rw [hpop] at h; cases h
      | some p =>
        rw [hpop] at h
        obtain ⟨r2, d2⟩ := p
        have h2 := Option.some.inj h
        simp only [Prod.mk.injEq] at h2
        obtain ⟨he1, he2⟩ := h2
        subst he1; subst he2
        have hres := ih r2 d2 hpop
        exact ⟨List.mem_cons_of_mem u hres.1, hres.2.1, by simpa using hres.2.2.1,
          List.Sublist.cons₂ u hres.2.2.2⟩

theorem nodup_map_replaceById {α : Type} (f : User → α) (db : List User) (user_id : Int)
    (nu : User) (hids : UniqueIds db)
    (hother : ∀ u ∈ db, u.id ≠ user_id → f u ≠ f nu)
    (hnd : (db.map f).Nodup) : ((replaceById db user_id nu).map f).Nodup := by
  induction db with
  | nil => simp [replaceById]
  | cons u rest ih =>
    simp only [UniqueIds, List.map_cons, List.nodup_cons] at hids
    simp only [List.map_cons, List.nodup_cons] at hnd
    unfold replaceById
    by_cases hu : u.id = user_id
    · rw [if_pos hu]
      simp only [List.map_cons, List.nodup_cons]
      refine ⟨?_, hnd.2⟩
      intro hmem
      rcases List.mem_map.1 hmem with ⟨v, hv, hfv⟩
      have hvid : v.id ≠ user_id := by
        intro hvid
        exact hids.1 (List.mem_map.2 ⟨v, hv, by rw [hvid, hu]⟩)
      exact hother v (List.mem_cons_of_mem u hv) hvid hfv
    · rw [if_neg hu]
      simp only [List.map_cons, List.nodup_cons]
      constructor
      · intro hmem
        rcases List.mem_map.1 hmem with ⟨v, hv, hfv⟩
        rcases mem_replaceById rest user_id nu v hv with h1 | h1
        · exact hother u (List.mem_cons_self u rest) hu (h1 ▸ hfv).symm
        · exact hnd.1 (List.mem_map.2 ⟨v, h1, hfv⟩)
      · exact ih hids.2 (fun v hv hvid => hother v (List.mem_cons_of_mem u hv) hvid) hnd.2

theorem loadList_ok_of_all_valid (ds : List UserDict)
    (h : ∀ d ∈ ds, ∃ u, validateUser d = Except.ok u) :
    ∃ us, loadList ds = Except.ok us ∧ us.length = ds.length := by
  induction ds with
  | nil => exact ⟨[], rfl, rfl⟩
  | cons d rest ih =>
    rcases h d (List.mem_cons_self d rest) with ⟨u, hu⟩
    rcases ih (fun d2 hd2 => h d2 (List.mem_cons_of_mem d hd2)) with ⟨us, hus, hlen⟩
    refine ⟨u :: us, ?_, by simp [hlen]⟩
    unfold loadList
    rw [hu, hus]

theorem loadList_error_of_invalid (ds : List UserDict)
    (h : ∃ d ∈ ds, ∀ u, validateUser d ≠ Except.ok u) :
    ∃ e, loadList ds = Except.error e := by
  induction ds with
  | nil => rcases h with ⟨d, hd, _⟩; cases hd
  | cons d rest ih =>
    unfold loadList
    cases hv : validateUser d with
    | error e => exact ⟨e, rfl⟩
    | ok u =>
      rcases h with ⟨d2, hd2, hne⟩
      rcases List.mem_cons.1 hd2 with hcase | hcase
      · exact absurd (hcase ▸ hv) (hne u)
      · rcases ih ⟨d2, hcase, hne⟩ with ⟨e, he⟩
        rw [he]
        exact ⟨e, rfl⟩

theorem nodup_append_singleton {α : Type} (l : List α) (a : α)
    (hnd : l.Nodup) (ha : a ∉ l) : (l ++ [a]).Nodup := by
  induction l with
  | nil => simp
  | cons b t ih =>
    simp only [List.nodup_cons] at hnd
    simp only [List.mem_cons, not_or] at ha
    simp only [List.cons_append, List.nodup_cons]
    constructor
    · intro hmem
      rcases List.mem_append.1 hmem with h1 | h1
      · exact hnd.1 h1
      · rcases List.mem_cons.1 h1 with h2 | h2
        · exact ha.1 h2.symm
        · cases h2
    · exact ih hnd.2 ha.2

theorem popById_no_target_id (db : List User) (user_id : Int) (db2 : List User) (du : User)
    (hinv : UniqueIds db) (h : popById db user_id = some (db2, du)) :
    ∀ v ∈ db2, v.id ≠ user_id := by
  induction db generalizing db2 du with
  | nil => simp [popById] at h
  | cons u rest ih =>
    simp only [UniqueIds, List.map_cons, List.nodup_cons] at hinv
    unfold popById at h
    by_cases hu : u.id = user_id
    · rw [if_pos hu] at h
      have h2 := Option.some.inj h
      simp only [Prod.mk.injEq] at h2
      obtain ⟨he1, he2⟩ := h2
      subst he1; subst he2
      intro v hv hvid
      exact hinv.1 (List.mem_map.2 ⟨v, hv, by rw [hvid, hu]⟩)
    · rw [if_neg hu] at h
      cases hpop : popById rest user_id with
      | none => rw [hpop] at h; cases h
      | some p =>
        rw [hpop] at h
        obtain ⟨r2, d2⟩ := p
        have h2 := Option.some.inj h
        simp only [Prod.mk.injEq] at h2
        obtain ⟨he1, he2⟩ := h2
        subst he1; subst he2
        intro v hv
        rcases List.mem_cons.1 hv with h3 | h3
        · exact h3 ▸ hu
        · exact ih r2 d2 hinv.2 hpop v h3

theorem drop_length_sub_one {α : Type} (l : List α) (hne : l ≠ []) :
    l.drop (l.length - 1) = [l.getLast hne] := by
  induction l with
  | nil => exact absurd rfl hne
  | cons a t ih =>
    cases t with
    | nil => rfl
    | cons b t2 =>
      have hlen : (a :: b :: t2).length - 1 = (b :: t2).length - 1 + 1 := by
        simp [List.length_cons]
      rw [hlen, List.drop_succ_cons, ih (by simp)]
      rw [List.getLast_cons (by simp : b :: t2 ≠ [])]

/-! ### Claim theorems -/

/-- C1: when the input's username and email occur nowhere in the store,
create succeeds, and the new record's id is 1 on an empty store, is strictly
greater than every existing id, and on a non-empty store equals some existing
record's id plus one — i.e. it is the maximum existing id plus one. -/
theorem create_user_assigns_next_id (st : AppState) (ud : UserCreate)
    (h : ∀ u ∈ st.users_db, u.username ≠ ud.username ∧ u.email ≠ ud.email) :
    ∃ st2 nu, create_user st ud = (st2, Except.ok nu) ∧
      (st.users_db = [] → nu.id = 1) ∧
      (∀ u ∈ st.users_db, u.id < nu.id) ∧
      (st.users_db ≠ [] → ∃ v ∈ st.users_db, nu.id = v.id + 1) := by
  have hc : checkDup st.users_db ud = none := (checkDup_eq_none_iff _ _).2 h
  have hcreate : create_user st ud =
      (⟨st.users_db ++ [mkUser (get_next_id st.users_db) ud],
        some (st.users_db ++ [mkUser (get_next_id st.users_db) ud])⟩,
       Except.ok (mkUser (get_next_id st.users_db) ud)) := by
    unfold create_user
    rw [hc]
  refine ⟨_, _, hcreate, ?_, ?_, ?_⟩
  · intro hemp
    show get_next_id st.users_db = 1
    rw [hemp]
    rfl
  · intro u hu
    exact id_lt_get_next_id st.users_db u hu
  · intro hne
    exact get_next_id_eq_succ_mem st.users_db hne

/-- Witness for C1 on the one-record store `[⟨5, alice⟩]` and input `bob`. -/
theorem create_user_assigns_next_id_witness :
    (∀ u ∈ ([⟨5, "alice", "a@x.com", none, none, true⟩] : List User),
      u.username ≠ "bob" ∧ u.email ≠ "b@y.com") ∧
    (∃ st2 nu, create_user ⟨[⟨5, "alice", "a@x.com", none, none, true⟩], none⟩
        ⟨"bob", "b@y.com", none, none, true⟩ = (st2, Except.ok nu) ∧
      (([⟨5, "alice", "a@x.com", none, none, true⟩] : List User) = [] → nu.id = 1) ∧
      (∀ u ∈ ([⟨5, "alice", "a@x.com", none, none, true⟩] : List User), u.id < nu.id) ∧
      (([⟨5, "alice", "a@x.com", none, none, true⟩] : List User) ≠ [] →
        ∃ v ∈ ([⟨5, "alice", "a@x.com", none, none, true⟩] : List User), nu.id = v.id + 1)) :=
  ⟨by decide, create_user_assigns_next_id ⟨[⟨5, "alice", "a@x.com", none, none, true⟩], none⟩
      ⟨"bob", "b@y.com", none, none, true⟩ (by decide)⟩

/-- C4: create fails with a 400 conflict iff the input's username or email
already occurs in the store; a failed create leaves the state (list and file)
unchanged; otherwise create appends the new record, writes the new list to
the data file, and returns the record. -/
theorem create_user_conflict_spec (st : AppState) (ud : UserCreate) :
    ((∃ u ∈ st.users_db, u.username = ud.username ∨ u.email = ud.email) ↔
      ∃ e, (create_user st ud).2 = Except.error e ∧ e.status_code = 400) ∧
    ((∃ e, (create_user st ud).2 = Except.error e) → (create_user st ud).1 = st) ∧
    ((∀ u ∈ st.users_db, u.username ≠ ud.username ∧ u.email ≠ ud.email) →
      ∃ nu, create_user st ud =
          (⟨st.users_db ++ [nu], some (st.users_db ++ [nu])⟩, Except.ok nu) ∧
        nu.username = ud.username ∧ nu.email = ud.email ∧ nu.full_name = ud.full_name ∧
        nu.phone = ud.phone ∧ nu.is_active = ud.is_active) := by
  cases hc : checkDup st.users_db ud with
  | some e =>
    have hcr : create_user st ud = (st, Except.error e) := by
      unfold create_user
      rw [hc]
    have hconf : ∃ u ∈ st.users_db, u.username = ud.username ∨ u.email = ud.email := by
      by_contra hno
      push_neg at hno
      have hnone : checkDup st.users_db ud = none := (checkDup_eq_none_iff _ _).2 hno
      rw [hnone] at hc
      cases hc
    refine ⟨iff_of_true hconf ⟨e, by rw [hcr], checkDup_some_status _ _ _ hc⟩,
      fun _ => by rw [hcr], ?_⟩
    intro hall
    have hnone : checkDup st.users_db ud = none := (checkDup_eq_none_iff _ _).2 hall
    rw [hnone] at hc
    cases hc
  | none =>
    have hcr : create_user st ud =
        (⟨st.users_db ++ [mkUser (get_next_id st.users_db) ud],
          some (st.users_db ++ [mkUser (get_next_id st.users_db) ud])⟩,
         Except.ok (mkUser (get_next_id st.users_db) ud)) := by
      unfold create_user
      rw [hc]
    have hall := (checkDup_eq_none_iff _ _).1 hc
    refine ⟨iff_of_false ?_ ?_, ?_, ?_⟩
    · rintro ⟨u, hu, hor⟩
      rcases hor with h1 | h1
      · exact (hall u hu).1 h1
      · exact (hall u hu).2 h1
    · rintro ⟨e, he, _⟩
      rw [hcr] at he
      cases he
    · rintro ⟨e, he⟩
      rw [hcr] at he
      cases he
    · intro _
      exact ⟨mkUser (get_next_id st.users_db) ud, hcr, rfl, rfl, rfl, rfl, rfl⟩

/-- Witness for C4: creating `bob` in the singleton store `[alice]`. -/
theorem create_user_conflict_spec_witness :
    (∀ u ∈ ([⟨1, "alice", "a@x.com", none, none, true⟩] : List User),
      u.username ≠ "bob" ∧ u.email ≠ "b@y.com") ∧
    (∃ nu, create_user ⟨[⟨1, "alice", "a@x.com", none, none, true⟩], none⟩
          ⟨"bob", "b@y.com", none, none, true⟩ =
        (⟨[⟨1, "alice", "a@x.com", none, none, true⟩] ++ [nu],
          some ([⟨1, "alice", "a@x.com", none, none, true⟩] ++ [nu])⟩, Except.ok nu) ∧
      nu.username = "bob" ∧ nu.email = "b@y.com" ∧ nu.full_name = none ∧
      nu.phone = none ∧ nu.is_active = true) :=
  ⟨by decide,
    (create_user_conflict_spec ⟨[⟨1, "alice", "a@x.com", none, none, true⟩], none⟩
      ⟨"bob", "b@y.com", none, none, true⟩).2.2 (by decide)⟩

/-- C5 counterexample: the store holds `other` (with the duplicate email)
before `dupname` (with the duplicate username).  The claim says the username
conflict is reported regardless of positions; the single-pass scan stops at
the first record and reports the email conflict instead. -/
theorem create_user_two_pass_counterexample :
    (create_user ⟨[⟨1, "other", "dup@x.com", none, none, true⟩,
        ⟨2, "dupname", "b@x.com", none, none, true⟩], none⟩
      ⟨"dupname", "dup@x.com", none, none, true⟩).2 =
        Except.error ⟨400, "邮箱已存在"⟩ ∧
    (⟨400, "邮箱已存在"⟩ : HTTPException) ≠ ⟨400, "用户名已存在"⟩ :=
  ⟨rfl, by decide⟩

/-- C5 (amended): the uniqueness check in create is a single linear scan that
checks, for each record in order, the username first and then the email; the
reported conflict is decided by the first record matching either field —
username conflict if that record's username matches, otherwise email
conflict.  So when the first matching record is an email match, the email
conflict is reported even if a later record matches the username. -/
theorem create_user_first_conflict (st : AppState) (ud : UserCreate)
    (pre : List User) (u : User) (rest : List User)
    (hdb : st.users_db = pre ++ u :: rest)
    (hpre : ∀ v ∈ pre, v.username ≠ ud.username ∧ v.email ≠ ud.email) :
    (u.username = ud.username →
      (create_user st ud).2 = Except.error ⟨400, "用户名已存在"⟩) ∧
    (u.username ≠ ud.username → u.email = ud.email →
      (create_user st ud).2 = Except.error ⟨400, "邮箱已存在"⟩) := by
  have hck : checkDup st.users_db ud = checkDup (u :: rest) ud := by
    rw [hdb]
    exact checkDup_append pre (u :: rest) ud hpre
  constructor
  · intro h1
    have hc : checkDup st.users_db ud = some ⟨400, "用户名已存在"⟩ := by
      rw [hck]
      show (if u.username = ud.username then some ⟨400, "用户名已存在"⟩
        else if u.email = ud.email then some ⟨400, "邮箱已存在"⟩
        else checkDup rest ud) = _
      rw [if_pos h1]
    unfold create_user
    rw [hc]
  · intro h1 h2
    have hc : checkDup st.users_db ud = some ⟨400, "邮箱已存在"⟩ := by
      rw [hck]
      show (if u.username = ud.username then some ⟨400, "用户名已存在"⟩
        else if u.email = ud.email then some ⟨400, "邮箱已存在"⟩
        else checkDup rest ud) = _
      rw [if_neg h1, if_pos h2]
    unfold create_user
    rw [hc]

/-- Witness for C5 (amended) on the two-record store of the counterexample. -/
theorem create_user_first_conflict_witness :
    ([⟨1, "other", "dup@x.com", none, none, true⟩,
        ⟨2, "dupname", "b@x.com", none, none, true⟩] : List User) =
      [] ++ (⟨1, "other", "dup@x.com", none, none, true⟩ : User) ::
        [⟨2, "dupname", "b@x.com", none, none, true⟩] ∧
    (∀ v ∈ ([] : List User), v.username ≠ "dupname" ∧ v.email ≠ "dup@x.com") ∧
    ((⟨1, "other", "dup@x.com", none, none, true⟩ : User).username ≠ "dupname" →
      (⟨1, "other", "dup@x.com", none, none, true⟩ : User).email = "dup@x.com" →
      (create_user ⟨[⟨1, "other", "dup@x.com", none, none, true⟩,
          ⟨2, "dupname", "b@x.com", none, none, true⟩], none⟩
        ⟨"dupname", "dup@x.com", none, none, true⟩).2 =
          Except.error ⟨400, "邮箱已存在"⟩) :=
  ⟨rfl, by decide,
    (create_user_first_conflict ⟨[⟨1, "other", "dup@x.com", none, none, true⟩,
        ⟨2, "dupname", "b@x.com", none, none, true⟩], none⟩
      ⟨"dupname", "dup@x.com", none, none, true⟩ []
      ⟨1, "other", "dup@x.com", none, none, true⟩
      [⟨2, "dupname", "b@x.com", none, none, true⟩] rfl (by decide)).2⟩

/-- C6: update fails with 404 when no record has the target id; when the
target exists and another record (different id) carries the new username or
email, update fails with a 400 conflict and the state is unchanged; otherwise
the target is replaced wholesale — id kept, every other field taken from the
input — the file is rewritten, and a subsequent get on that id returns the
updated record. -/
theorem update_user_spec (st : AppState) (user_id : Int) (ud : UserCreate) :
    ((∀ u ∈ st.users_db, u.id ≠ user_id) →
      update_user st user_id ud = (st, Except.error ⟨404, "用户不存在"⟩)) ∧
    ((∃ u ∈ st.users_db, u.id = user_id) →
      (∃ u ∈ st.users_db, u.id ≠ user_id ∧ (u.username = ud.username ∨ u.email = ud.email)) →
      ∃ e, update_user st user_id ud = (st, Except.error e) ∧ e.status_code = 400) ∧
    ((∃ u ∈ st.users_db, u.id = user_id) →
      (∀ u ∈ st.users_db, u.id ≠ user_id → u.username ≠ ud.username ∧ u.email ≠ ud.email) →
      ∃ nu, (update_user st user_id ud).2 = Except.ok nu ∧
        nu.id = user_id ∧ nu.username = ud.username ∧ nu.email = ud.email ∧
        nu.full_name = ud.full_name ∧ nu.phone = ud.phone ∧ nu.is_active = ud.is_active ∧
        get_user (update_user st user_id ud).1.users_db user_id = Except.ok nu ∧
        (update_user st user_id ud).1.data_file =
          some (update_user st user_id ud).1.users_db) := by
  refine ⟨?_, ?_, ?_⟩
  · intro hno
    unfold update_user
    rw [if_neg ?_]
    rintro ⟨u, hu, hid⟩
    exact hno u hu hid
  · intro hex hconf
    cases hco : checkOtherDup st.users_db user_id ud with
    | none =>
      exfalso
      rcases hconf with ⟨u, hu, hid, hor⟩
      have hall := (checkOtherDup_eq_none_iff _ _ _).1 hco u hu hid
      rcases hor with h1 | h1
      · exact hall.1 h1
      · exact hall.2 h1
    | some e =>
      refine ⟨e, ?_, checkOtherDup_some_status _ _ _ _ hco⟩
      unfold update_user
      rw [if_pos hex, hco]
  · intro hex hall
    have hco : checkOtherDup st.users_db user_id ud = none :=
      (checkOtherDup_eq_none_iff _ _ _).2 hall
    have hupd : update_user st user_id ud =
        (⟨replaceById st.users_db user_id (mkUser user_id ud),
          some (replaceById st.users_db user_id (mkUser user_id ud))⟩,
         Except.ok (mkUser user_id ud)) := by
      unfold update_user
      rw [if_pos hex, hco]
    refine ⟨mkUser user_id ud, by rw [hupd], rfl, rfl, rfl, rfl, rfl, rfl, ?_, by rw [hupd]⟩
    rw [hupd]
    exact get_user_replaceById st.users_db user_id (mkUser user_id ud) rfl hex

/-- Witness for C6: updating id 1 in the store `[⟨1, alice⟩, ⟨2, bob⟩]`. -/
theorem update_user_spec_witness :
    (∃ u ∈ ([⟨1, "alice", "a@x.com", none, none, true⟩,
        ⟨2, "bob", "b@y.com", none, none, true⟩] : List User), u.id = 1) ∧
    (∀ u ∈ ([⟨1, "alice", "a@x.com", none, none, true⟩,
        ⟨2, "bob", "b@y.com", none, none, true⟩] : List User), u.id ≠ 1 →
      u.username ≠ "carol" ∧ u.email ≠ "c@z.com") ∧
    (∃ nu, (update_user ⟨[⟨1, "alice", "a@x.com", none, none, true⟩,
          ⟨2, "bob", "b@y.com", none, none, true⟩], none⟩ 1
        ⟨"carol", "c@z.com", none, none, true⟩).2 = Except.ok nu ∧
      nu.id = 1 ∧ nu.username = "carol" ∧ nu.email = "c@z.com" ∧
      nu.full_name = none ∧ nu.phone = none ∧ nu.is_active = true ∧
      get_user (update_user ⟨[⟨1, "alice", "a@x.com", none, none, true⟩,
          ⟨2, "bob", "b@y.com", none, none, true⟩], none⟩ 1
        ⟨"carol", "c@z.com", none, none, true⟩).1.users_db 1 = Except.ok nu ∧
      (update_user ⟨[⟨1, "alice", "a@x.com", none, none, true⟩,
          ⟨2, "bob", "b@y.com", none, none, true⟩], none⟩ 1
        ⟨"carol", "c@z.com", none, none, true⟩).1.data_file =
        some (update_user ⟨[⟨1, "alice", "a@x.com", none, none, true⟩,
          ⟨2, "bob", "b@y.com", none, none, true⟩], none⟩ 1
        ⟨"carol", "c@z.com", none, none, true⟩).1.users_db) :=
  ⟨by decide, by decide,
    (update_user_spec ⟨[⟨1, "alice", "a@x.com", none, none, true⟩,
        ⟨2, "bob", "b@y.com", none, none, true⟩], none⟩ 1
      ⟨"carol", "c@z.com", none, none, true⟩).2.2 (by decide) (by decide)⟩

/-- C7: on a store whose ids are unique (the data-model invariant), delete
fails with 404 when no record has the id; otherwise it removes exactly the
record with that id and returns it, the count drops by one, every surviving
record was already in the store, the file is rewritten, and a subsequent get
on that id fails with 404. -/
theorem delete_user_spec (st : AppState) (user_id : Int)
    (hinv : UniqueIds st.users_db) :
    ((∀ u ∈ st.users_db, u.id ≠ user_id) →
      delete_user st user_id = (st, Except.error ⟨404, "用户不存在"⟩)) ∧
    ((∃ u ∈ st.users_db, u.id = user_id) →
      ∃ st2 du, delete_user st user_id = (st2, Except.ok du) ∧
        du ∈ st.users_db ∧ du.id = user_id ∧
        st2.users_db.length + 1 = st.users_db.length ∧
        (∀ v ∈ st2.users_db, v ∈ st.users_db) ∧
        st2.data_file = some st2.users_db ∧
        get_user st2.users_db user_id = Except.error ⟨404, "用户不存在"⟩) := by
  constructor
  · intro hno
    have hpop : popById st.users_db user_id = none := (popById_eq_none_iff _ _).2 hno
    unfold delete_user
    rw [hpop]
  · intro hex
    cases hpop : popById st.users_db user_id with
    | none =>
      exfalso
      rcases hex with ⟨u, hu, hid⟩
      exact (popById_eq_none_iff _ _).1 hpop u hu hid
    | some p =>
      obtain ⟨db2, du⟩ := p
      have hspec := popById_some_spec st.users_db user_id db2 du hpop
      have hdel : delete_user st user_id = (⟨db2, some db2⟩, Except.ok du) := by
        unfold delete_user
        rw [hpop]
      refine ⟨⟨db2, some db2⟩, du, hdel, hspec.1, hspec.2.1, hspec.2.2.1, ?_, rfl, ?_⟩
      · intro v hv
        exact hspec.2.2.2.subset hv
      · exact get_user_eq_error db2 user_id
          (popById_no_target_id st.users_db user_id db2 du hinv hpop)

/-- Witness for C7: deleting id 1 from the two-record store `[alice, bob]`. -/
theorem delete_user_spec_witness :
    UniqueIds [⟨1, "alice", "a@x.com", none, none, true⟩,
      ⟨2, "bob", "b@y.com", none, none, true⟩] ∧
    (∃ u ∈ ([⟨1, "alice", "a@x.com", none, none, true⟩,
        ⟨2, "bob", "b@y.com", none, none, true⟩] : List User), u.id = 1) ∧
    (∃ st2 du, delete_user ⟨[⟨1, "alice", "a@x.com", none, none, true⟩,
          ⟨2, "bob", "b@y.com", none, none, true⟩], none⟩ 1 = (st2, Except.ok du) ∧
      du ∈ ([⟨1, "alice", "a@x.com", none, none, true⟩,
          ⟨2, "bob", "b@y.com", none, none, true⟩] : List User) ∧ du.id = 1 ∧
      st2.users_db.length + 1 =
        ([⟨1, "alice", "a@x.com", none, none, true⟩,
          ⟨2, "bob", "b@y.com", none, none, true⟩] : List User).length ∧
      (∀ v ∈ st2.users_db, v ∈ ([⟨1, "alice", "a@x.com", none, none, true⟩,
          ⟨2, "bob", "b@y.com", none, none, true⟩] : List User)) ∧
      st2.data_file = some st2.users_db ∧
      get_user st2.users_db 1 = Except.error ⟨404, "用户不存在"⟩) :=
  ⟨by decide, by decide,
    (delete_user_spec ⟨[⟨1, "alice", "a@x.com", none, none, true⟩,
        ⟨2, "bob", "b@y.com", none, none, true⟩], none⟩ 1 (by decide)).2 (by decide)⟩

/-- C8: every successful create, update and delete preserves the three
uniqueness invariants — pairwise-distinct ids, usernames and emails. -/
theorem mutations_preserve_invariants :
    (∀ (st : AppState) (ud : UserCreate) (st2 : AppState) (nu : User),
      StoreInv st.users_db → create_user st ud = (st2, Except.ok nu) →
      StoreInv st2.users_db) ∧
    (∀ (st : AppState) (user_id : Int) (ud : UserCreate) (st2 : AppState) (nu : User),
      StoreInv st.users_db → update_user st user_id ud = (st2, Except.ok nu) →
      StoreInv st2.users_db) ∧
    (∀ (st : AppState) (user_id : Int) (st2 : AppState) (du : User),
      StoreInv st.users_db → delete_user st user_id = (st2, Except.ok du) →
      StoreInv st2.users_db) := by
  refine ⟨?_, ?_, ?_⟩
  · intro st ud st2 nu hinv h
    cases hc : checkDup st.users_db ud with
    | some e =>
      unfold create_user at h
      rw [hc] at h
      cases congrArg Prod.snd h
    | none =>
      unfold create_user at h
      rw [hc] at h
      have h1 : (⟨st.users_db ++ [mkUser (get_next_id st.users_db) ud],
          some (st.users_db ++ [mkUser (get_next_id st.users_db) ud])⟩ : AppState) = st2 :=
        congrArg Prod.fst h
      rw [← h1]
      show StoreInv (st.users_db ++ [mkUser (get_next_id st.users_db) ud])
      have hall := (checkDup_eq_none_iff _ _).1 hc
      refine ⟨?_, ?_, ?_⟩
      · show ((st.users_db ++ [mkUser (get_next_id st.users_db) ud]).map User.id).Nodup
        rw [List.map_append]
        refine nodup_append_singleton _ _ hinv.1 ?_
        intro hmem
        rcases List.mem_map.1 hmem with ⟨v, hv, hvid⟩
        exact absurd hvid (ne_of_lt (id_lt_get_next_id st.users_db v hv))
      · show ((st.users_db ++ [mkUser (get_next_id st.users_db) ud]).map User.username).Nodup
        rw [List.map_append]
        refine nodup_append_singleton _ _ hinv.2.1 ?_
        intro hmem
        rcases List.mem_map.1 hmem with ⟨v, hv, hvu⟩
        exact (hall v hv).1 hvu
      · show ((st.users_db ++ [mkUser (get_next_id st.users_db) ud]).map User.email).Nodup
        rw [List.map_append]
        refine nodup_append_singleton _ _ hinv.2.2 ?_
        intro hmem
        rcases List.mem_map.1 hmem with ⟨v, hv, hve⟩
        exact (hall v hv).2 hve
  · intro st user_id ud st2 nu hinv h
    unfold update_user at h
    by_cases hex : ∃ u ∈ st.users_db, u.id = user_id
    · rw [if_pos hex] at h
      cases hco : checkOtherDup st.users_db user_id ud with
      | some e =>
        rw [hco] at h
        cases congrArg Prod.snd h
      | none =>
        rw [hco] at h
        have h1 : (⟨replaceById st.users_db user_id (mkUser user_id ud),
            some (replaceById st.users_db user_id (mkUser user_id ud))⟩ : AppState) = st2 :=
          congrArg Prod.fst h
        rw [← h1]
        show StoreInv (replaceById st.users_db user_id (mkUser user_id ud))
        have hall := (checkOtherDup_eq_none_iff _ _ _).1 hco
        refine ⟨?_, ?_, ?_⟩
        · show ((replaceById st.users_db user_id (mkUser user_id ud)).map User.id).Nodup
          rw [replaceById_map_id st.users_db user_id (mkUser user_id ud) rfl]
          exact hinv.1
        · exact nodup_map_replaceById User.username st.users_db user_id
            (mkUser user_id ud) hinv.1 (fun u hu hid => (hall u hu hid).1) hinv.2.1
        · exact nodup_map_replaceById User.email st.users_db user_id
            (mkUser user_id ud) hinv.1 (fun u hu hid => (hall u hu hid).2) hinv.2.2
    · rw [if_neg hex] at h
      cases congrArg Prod.snd h
  · intro st user_id st2 du hinv h
    unfold delete_user at h
    cases hpop : popById st.users_db user_id with
    | none =>
      rw [hpop] at h
      cases congrArg Prod.snd h
    | some p =>
      obtain ⟨db2, du2⟩ := p
      rw [hpop] at h
      have h1 : (⟨db2, some db2⟩ : AppState) = st2 := congrArg Prod.fst h
      rw [← h1]
      show StoreInv db2
      have hsub := (popById_some_spec st.users_db user_id db2 du2 hpop).2.2.2
      exact ⟨(hsub.map User.id).nodup hinv.1,
        (hsub.map User.username).nodup hinv.2.1,
        (hsub.map User.email).nodup hinv.2.2⟩

/-- Witness for C8: the three conjuncts applied to concrete stores. -/
theorem mutations_preserve_invariants_witness :
    StoreInv ((create_user ⟨[], none⟩ ⟨"bob", "b@y.com", none, none, true⟩).1.users_db) ∧
    StoreInv ((update_user ⟨[⟨1, "alice", "a@x.com", none, none, true⟩], none⟩ 1
      ⟨"carol", "c@z.com", none, none, true⟩).1.users_db) ∧
    StoreInv ((delete_user ⟨[⟨1, "alice", "a@x.com", none, none, true⟩], none⟩ 1).1.users_db) :=
  ⟨mutations_preserve_invariants.1 ⟨[], none⟩ ⟨"bob", "b@y.com", none, none, true⟩
      _ _ (by decide) rfl,
    mutations_preserve_invariants.2.1 ⟨[⟨1, "alice", "a@x.com", none, none, true⟩], none⟩ 1
      ⟨"carol", "c@z.com", none, none, true⟩ _ _ (by decide) rfl,
    mutations_preserve_invariants.2.2 ⟨[⟨1, "alice", "a@x.com", none, none, true⟩], none⟩ 1
      _ _ (by decide) rfl⟩

/-- C2 counterexample: the record's phone is "PH" and the search is "PH".
Under the claimed all-four-fields case-insensitive matching the record
matches (`specMatch` is true), but the code lowercases only the search
string, compares it to the phone as stored, finds no match, and returns an
empty page with total 0. -/
theorem get_all_users_phone_case_counterexample :
    specMatch "PH" ⟨1, "u1", "e1@x.com", none, some "PH", true⟩ = true ∧
    (get_all_users [⟨1, "u1", "e1@x.com", none, some "PH", true⟩] 0 100 (some "PH")).total = 0 ∧
    (get_all_users [⟨1, "u1", "e1@x.com", none, some "PH", true⟩] 0 100 (some "PH")).users = [] :=
  ⟨by decide, by decide, by decide⟩

/-- C2 (amended): for skip ≥ 0, limit ≥ 0 and a non-empty search string, the
page is exactly the slice [skip, skip+limit) of the records matching the
filter, the total is the number of matching records before slicing, and every
page member matches — where the filter tests the lowercased search string
case-insensitively against username, email and full name, but against the
phone as stored (case-sensitively); and list(0, 100) on the empty store
returns total 0 and an empty page. -/
theorem get_all_users_search_spec (db : List User) (skip limit : Int) (s : String)
    (hskip : 0 ≤ skip) (hlimit : 0 ≤ limit) (hs : ¬ s.isEmpty) :
    (get_all_users db skip limit (some s)).total
        = (db.filter (specMatchAmended s)).length ∧
    (get_all_users db skip limit (some s)).users
        = ((db.filter (specMatchAmended s)).drop skip.toNat).take limit.toNat ∧
    (∀ u ∈ (get_all_users db skip limit (some s)).users, specMatchAmended s u = true) ∧
    (get_all_users [] 0 100 none).total = 0 ∧
    (get_all_users [] 0 100 none).users = [] := by
  have hfil : db.filter (matchesSearch (lowerStr s)) = db.filter (specMatchAmended s) := rfl
  have hga : get_all_users db skip limit (some s) =
      { total := (db.filter (matchesSearch (lowerStr s))).length, skip := skip, limit := limit,
        users := pySlice (db.filter (matchesSearch (lowerStr s))) skip (skip + limit) } := by
    simp only [get_all_users]
    rw [if_neg hs]
  refine ⟨?_, ?_, ?_, rfl, rfl⟩
  · rw [hga, ← hfil]
  · rw [hga]
    show pySlice (db.filter (matchesSearch (lowerStr s))) skip (skip + limit) = _
    rw [pySlice_nonneg _ _ _ hskip hlimit, hfil]
  · intro u hu
    rw [hga] at hu
    simp only [pySlice] at hu
    have hu2 : u ∈ db.filter (matchesSearch (lowerStr s)) :=
      List.mem_of_mem_take (List.mem_of_mem_drop hu)
    rw [specMatchAmended_eq_matchesSearch]
    exact (List.mem_filter.1 hu2).2

/-- Witness for C2 (amended): searching "li" in a two-record store. -/
theorem get_all_users_search_spec_witness :
    (0 : Int) ≤ 0 ∧ (0 : Int) ≤ 100 ∧ ¬ ("li").isEmpty ∧
    ((get_all_users [⟨1, "Alice", "a@x.com", none, none, true⟩,
        ⟨2, "bob", "b@y.com", none, none, true⟩] 0 100 (some "li")).total
      = (([⟨1, "Alice", "a@x.com", none, none, true⟩,
        ⟨2, "bob", "b@y.com", none, none, true⟩] : List User).filter
          (specMatchAmended "li")).length ∧
    (get_all_users [⟨1, "Alice", "a@x.com", none, none, true⟩,
        ⟨2, "bob", "b@y.com", none, none, true⟩] 0 100 (some "li")).users
      = ((([⟨1, "Alice", "a@x.com", none, none, true⟩,
        ⟨2, "bob", "b@y.com", none, none, true⟩] : List User).filter
          (specMatchAmended "li")).drop (0 : Int).toNat).take (100 : Int).toNat ∧
    (∀ u ∈ (get_all_users [⟨1, "Alice", "a@x.com", none, none, true⟩,
        ⟨2, "bob", "b@y.com", none, none, true⟩] 0 100 (some "li")).users,
      specMatchAmended "li" u = true) ∧
    (get_all_users [] 0 100 none).total = 0 ∧
    (get_all_users [] 0 100 none).users = []) :=
  ⟨by decide, by decide, by decide,
    get_all_users_search_spec [⟨1, "Alice", "a@x.com", none, none, true⟩,
      ⟨2, "bob", "b@y.com", none, none, true⟩] 0 100 "li"
      (by decide) (by decide) (by decide)⟩

/-- C3 counterexample: a record whose phone contains the keyword is selected
by the list filter but not returned by the search route, so the two do not
return the same records. -/
theorem search_users_phone_counterexample :
    search_users [⟨2, "u2", "e2@x.com", none, some "x555y", true⟩] "555" = [] ∧
    (get_all_users [⟨2, "u2", "e2@x.com", none, some "x555y", true⟩] 0 100 (some "555")).users
      = [⟨2, "u2", "e2@x.com", none, some "x555y", true⟩] ∧
    search_users [⟨2, "u2", "e2@x.com", none, some "x555y", true⟩] "555" ≠
      (get_all_users [⟨2, "u2", "e2@x.com", none, some "x555y", true⟩] 0 100
        (some "555")).users :=
  ⟨by decide, by decide, by decide⟩

/-- C3 (amended): the search route returns, in store order, exactly the
records whose lowercased username, email or full name contains the lowercased
keyword — the phone is not consulted; it therefore coincides with the list
operation's filter on every store in which no record has a phone. -/
theorem search_users_spec (db : List User) (keyword : String) :
    search_users db keyword = db.filter (fun u =>
      substrIn (lowerStr keyword) (lowerStr u.username) ||
      substrIn (lowerStr keyword) (lowerStr u.email) ||
      (match u.full_name with
        | some fn => substrIn (lowerStr keyword) (lowerStr fn)
        | none => false)) ∧
    ((∀ u ∈ db, u.phone = none) →
      search_users db keyword = db.filter (matchesSearch (lowerStr keyword))) := by
  have hmain : search_users db keyword = db.filter (fun u =>
      substrIn (lowerStr keyword) (lowerStr u.username) ||
      substrIn (lowerStr keyword) (lowerStr u.email) ||
      (match u.full_name with
        | some fn => substrIn (lowerStr keyword) (lowerStr fn)
        | none => false)) := by
    induction db with
    | nil => rfl
    | cons u rest ih =>
      rw [List.filter_cons]
      show (if substrIn (lowerStr keyword) (lowerStr u.username) ||
          substrIn (lowerStr keyword) (lowerStr u.email) ||
          (match u.full_name with
            | some fn => substrIn (lowerStr keyword) (lowerStr fn)
            | none => false)
        then u :: search_users rest keyword
        else search_users rest keyword) = _
      by_cases hc : (substrIn (lowerStr keyword) (lowerStr u.username) ||
          substrIn (lowerStr keyword) (lowerStr u.email) ||
          (match u.full_name with
            | some fn => substrIn (lowerStr keyword) (lowerStr fn)
            | none => false)) = true
      · rw [if_pos hc, if_pos hc, ih]
      · rw [if_neg hc, if_neg hc, ih]
  refine ⟨hmain, ?_⟩
  intro hphone
  rw [hmain]
  refine List.filter_congr ?_
  intro u hu
  unfold matchesSearch
  rw [hphone u hu]
  simp only [Bool.or_false]

/-- Witness for C3 (amended) on a phoneless two-record store. -/
theorem search_users_spec_witness :
    (∀ u ∈ ([⟨1, "Alice", "a@x.com", none, none, true⟩,
        ⟨2, "bob", "b@y.com", none, none, true⟩] : List User), u.phone = none) ∧
    search_users [⟨1, "Alice", "a@x.com", none, none, true⟩,
        ⟨2, "bob", "b@y.com", none, none, true⟩] "li"
      = ([⟨1, "Alice", "a@x.com", none, none, true⟩,
        ⟨2, "bob", "b@y.com", none, none, true⟩] : List User).filter
          (matchesSearch (lowerStr "li")) :=
  ⟨by decide,
    (search_users_spec [⟨1, "Alice", "a@x.com", none, none, true⟩,
      ⟨2, "bob", "b@y.com", none, none, true⟩] "li").2 (by decide)⟩

/-- C9 counterexample: the persisted content decodes as a JSON array whose
single object lacks the required username and email, so it is malformed as a
record sequence; the claim says any parse error is swallowed and the empty
sequence returned, but `load_users` surfaces the validation error. -/
theorem load_users_validation_counterexample :
    load_users (some (JsonDoc.array [⟨some 1, none, none, none, none, none⟩])) =
      Except.error "validation error" ∧
    load_users (some (JsonDoc.array [⟨some 1, none, none, none, none, none⟩])) ≠
      Except.ok [] :=
  ⟨rfl, fun h => Except.noConfusion h⟩

/-- C9 (amended): load yields the empty sequence when the file is absent and
when the JSON itself fails to decode (the decode error is swallowed); when
the JSON decodes to an array, load returns one record per object if every
object validates, but a failed record validation is not swallowed — it
surfaces as an error. -/
theorem load_users_spec :
    load_users none = Except.ok [] ∧
    load_users (some JsonDoc.malformed) = Except.ok [] ∧
    (∀ ds : List UserDict, (∀ d ∈ ds, ∃ u, validateUser d = Except.ok u) →
      ∃ us, load_users (some (JsonDoc.array ds)) = Except.ok us ∧
        us.length = ds.length) ∧
    (∀ ds : List UserDict, (∃ d ∈ ds, ∀ u, validateUser d ≠ Except.ok u) →
      ∃ e, load_users (some (JsonDoc.array ds)) = Except.error e) :=
  ⟨rfl, rfl,
    fun ds h => loadList_ok_of_all_valid ds h,
    fun ds h => loadList_error_of_invalid ds h⟩

/-- Witness for C9 (amended): a valid one-object array loads as one record; a
one-object array missing required fields surfaces an error. -/
theorem load_users_spec_witness :
    (∀ d ∈ [(⟨some 1, some "alice", some "a@x.com", none, none, none⟩ : UserDict)],
      ∃ u, validateUser d = Except.ok u) ∧
    (∃ us, load_users (some (JsonDoc.array
        [⟨some 1, some "alice", some "a@x.com", none, none, none⟩])) = Except.ok us ∧
      us.length = [(⟨some 1, some "alice", some "a@x.com", none, none, none⟩ :
        UserDict)].length) ∧
    (∃ d ∈ [(⟨some 2, none, none, none, none, none⟩ : UserDict)],
      ∀ u, validateUser d ≠ Except.ok u) ∧
    (∃ e, load_users (some (JsonDoc.array [⟨some 2, none, none, none, none, none⟩])) =
      Except.error e) :=
  ⟨fun d hd => by
      rw [List.mem_singleton] at hd
      subst hd
      exact ⟨_, rfl⟩,
    load_users_spec.2.2.1 _ (fun d hd => by
      rw [List.mem_singleton] at hd
      subst hd
      exact ⟨_, rfl⟩),
    ⟨⟨some 2, none, none, none, none, none⟩, List.mem_singleton.2 rfl,
      fun u h => Except.noConfusion h⟩,
    load_users_spec.2.2.2 _ ⟨⟨some 2, none, none, none, none, none⟩,
      List.mem_singleton.2 rfl, fun u h => Except.noConfusion h⟩⟩

/-- C10: with 1 ≤ n ≤ 99 records and no search string, skip = -1 with
limit = 100 does not fail and does not page from the first record: the total
is n and the page is exactly the last record, because the negative skip
slices relative to the end of the sequence. -/
theorem get_all_users_negative_skip (db : List User)
    (h1 : 1 ≤ db.length) (h2 : db.length ≤ 99) :
    (get_all_users db (-1) 100 none).total = db.length ∧
    (get_all_users db (-1) 100 none).users = db.drop (db.length - 1) ∧
    (get_all_users db (-1) 100 none).users.length = 1 ∧
    ∀ hne : db ≠ [], (get_all_users db (-1) 100 none).users = [db.getLast hne] := by
  have husers : (get_all_users db (-1) 100 none).users = db.drop (db.length - 1) := by
    show pySlice db (-1) (-1 + 100) = db.drop (db.length - 1)
    have h99 : (-1 : Int) + 100 = 99 := by norm_num
    rw [h99]
    simp only [pySlice]
    rw [if_pos (by norm_num : (-1 : Int) < 0), if_neg (by norm_num : ¬ (99 : Int) < 0)]
    have hbt : (max ((db.length : Int) + (-1)) 0).toNat = db.length - 1 := by omega
    have het : (min (99 : Int) (db.length : Int)).toNat = db.length := by omega
    rw [hbt, het, List.take_length]
  refine ⟨rfl, husers, ?_, ?_⟩
  · rw [husers, List.length_drop]
    omega
  · intro hne
    rw [husers]
    exact drop_length_sub_one db hne

/-- Witness for C10 on a concrete two-record store. -/
theorem get_all_users_negative_skip_witness :
    1 ≤ ([⟨1, "alice", "a@x.com", none, none, true⟩,
      ⟨2, "bob", "b@y.com", none, none, true⟩] : List User).length ∧
    ([⟨1, "alice", "a@x.com", none, none, true⟩,
      ⟨2, "bob", "b@y.com", none, none, true⟩] : List User).length ≤ 99 ∧
    ((get_all_users [⟨1, "alice", "a@x.com", none, none, true⟩,
        ⟨2, "bob", "b@y.com", none, none, true⟩] (-1) 100 none).total
      = ([⟨1, "alice", "a@x.com", none, none, true⟩,
        ⟨2, "bob", "b@y.com", none, none, true⟩] : List User).length ∧
    (get_all_users [⟨1, "alice", "a@x.com", none, none, true⟩,
        ⟨2, "bob", "b@y.com", none, none, true⟩] (-1) 100 none).users
      = ([⟨1, "alice", "a@x.com", none, none, true⟩,
        ⟨2, "bob", "b@y.com", none, none, true⟩] : List User).drop
          (([⟨1, "alice", "a@x.com", none, none, true⟩,
            ⟨2, "bob", "b@y.com", none, none, true⟩] : List User).length - 1) ∧
    (get_all_users [⟨1, "alice", "a@x.com", none, none, true⟩,
        ⟨2, "bob", "b@y.com", none, none, true⟩] (-1) 100 none).users.length = 1 ∧
    ∀ hne : ([⟨1, "alice", "a@x.com", none, none, true⟩,
        ⟨2, "bob", "b@y.com", none, none, true⟩] : List User) ≠ [],
      (get_all_users [⟨1, "alice", "a@x.com", none, none, true⟩,
        ⟨2, "bob", "b@y.com", none, none, true⟩] (-1) 100 none).users
        = [([⟨1, "alice", "a@x.com", none, none, true⟩,
          ⟨2, "bob", "b@y.com", none, none, true⟩] : List User).getLast hne]) :=
  ⟨by decide, by decide,
    get_all_users_negative_skip [⟨1, "alice", "a@x.com", none, none, true⟩,
      ⟨2, "bob", "b@y.com", none, none, true⟩] (by decide) (by decide)⟩
